import Mathlib

/-!
Shallow embedding of the SafePoll survey contract (`contracts/SafePoll.sol`).

Encrypted `euint32` accumulators are modelled by their plaintext values as
natural numbers; homomorphic addition wraps modulo `2 ^ 32`.  Addresses are
modelled as natural numbers.  A reverting call is modelled by `Except.error`;
the transaction-level function `exec` keeps the pre-state on error, which is
the chain's rollback semantics.  The external FHE proof / signature checks
(`FHE.fromExternal`, `FHE.checkSignatures`) are modelled by a boolean validity
flag supplied by the environment.
-/

namespace SafePoll

/-- Modulus of `euint32` arithmetic: `FHE.add` on `euint32` wraps modulo `2 ^ 32`. -/
def m32 : Nat := 2 ^ 32

/-- Struct `Question`: prompt text, option labels, and the per-option encrypted
accumulators (`mapping(uint256 => euint32) optionCounts`), modelled by their
plaintext values, index-aligned with `options` (unwritten mapping slots read 0). -/
structure Question where
  text : String
  options : List String
  optionCounts : List Nat
  deriving DecidableEq, Repr, Inhabited

/-- Struct `Survey` of the contract.  `hasVoted` (a `mapping(address => bool)`)
is modelled by the list of addresses mapped to `true`. -/
structure Survey where
  id : Nat
  title : String
  description : String
  creator : Nat
  isActive : Bool
  resultsDecrypted : Bool
  questionCount : Nat
  questions : List Question
  hasVoted : List Nat
  totalVotes : Nat
  createdAt : Nat
  deriving DecidableEq, Repr, Inhabited

/-- Struct `DecryptedResults` of the contract. -/
structure DecryptedResults where
  surveyId : Nat
  questionIndex : Nat
  optionCounts : List Nat
  deriving DecidableEq, Repr, Inhabited

/-- The contract's events. -/
inductive Ev where
  | surveyCreated (surveyId creator : Nat) (title : String)
  | voteSubmitted (surveyId voter : Nat)
  | surveyEnded (surveyId : Nat)
  | resultsDecrypted (surveyId : Nat)
  deriving DecidableEq, Repr

/-- The contract's storage: `_surveyCounter`, the `surveys` mapping (survey id
`k` lives at list index `k - 1`), the `decryptedResults` mapping (never written
by the contract), plus the emitted event log. -/
structure SafePollState where
  surveyCounter : Nat
  surveys : List Survey
  decryptedResults : List DecryptedResults
  events : List Ev
  deriving DecidableEq, Repr

/-- Storage of a freshly deployed contract. -/
def initialState : SafePollState := ⟨0, [], [], []⟩

/-- Mapping access `surveys[surveyId]` (default struct when the slot is unset). -/
def surveyOf (s : SafePollState) (surveyId : Nat) : Survey :=
  s.surveys.getD (surveyId - 1) default

/-- Modifier `surveyExists`: `surveyId > 0 && surveyId <= _surveyCounter`. -/
def surveyExists (s : SafePollState) (surveyId : Nat) : Prop :=
  0 < surveyId ∧ surveyId ≤ s.surveyCounter

instance (s : SafePollState) (surveyId : Nat) : Decidable (surveyExists s surveyId) :=
  inferInstanceAs (Decidable (_ ∧ _))

/-- View `getTotalSurveys()`. -/
def getTotalSurveys (s : SafePollState) : Nat := s.surveyCounter

/-- One question as initialized by `createSurvey`: text and options stored, one
encrypted-zero accumulator per option. -/
def initQuestion (text : String) (options : List String) : Question :=
  { text := text, options := options, optionCounts := List.replicate options.length 0 }

/-- The question-initialization loop of `createSurvey`, running over the zipped
`questionTexts` / `questionOptions` (their lengths are equal at this point):
each iteration requires non-empty text and at least two options. -/
def buildQuestions : List (String × List String) → Except String (List Question)
  | [] => .ok []
  | (t, os) :: rest =>
      if t = "" then .error "Question text cannot be empty"
      else if os.length < 2 then .error "Question must have at least 2 options"
      else (buildQuestions rest).map (fun qs => initQuestion t os :: qs)

/-- Function `createSurvey`. -/
def createSurvey (s : SafePollState) (caller : Nat) (title description : String)
    (questionTexts : List String) (questionOptions : List (List String))
    (timestamp : Nat) : Except String (SafePollState × Nat) :=
  if title = "" then .error "Title cannot be empty"
  else if questionTexts = [] then .error "Must have at least one question"
  else if questionTexts.length ≠ questionOptions.length then
    .error "Questions and options length mismatch"
  else
    (buildQuestions (questionTexts.zip questionOptions)).map (fun qs =>
      let surveyId := s.surveyCounter + 1
      let sv : Survey :=
        { id := surveyId, title := title, description := description, creator := caller,
          isActive := true, resultsDecrypted := false,
          questionCount := questionTexts.length, questions := qs,
          hasVoted := [], totalVotes := 0, createdAt := timestamp }
      ({ s with
          surveyCounter := surveyId,
          surveys := s.surveys ++ [sv],
          events := s.events ++ [Ev.surveyCreated surveyId caller title] }, surveyId))

/-- The per-question body of the `submitVotes` loop:
`optionCounts[0] = FHE.add(optionCounts[0], FHE.asEuint32(1))` — the code adds
1 to the accumulator of option 0, ignoring the submitted encrypted choice. -/
def bumpFirstOption (q : Question) : Question :=
  { q with optionCounts := q.optionCounts.set 0 ((q.optionCounts.getD 0 0 + 1) % m32) }

/-- The `submitVotes` loop over `encryptedVotes`: iteration `i` first runs
`FHE.fromExternal(encryptedVotes[i], inputProof)` (reverting when the input
proof is invalid) and then bumps option 0 of question `i`.  The vote values
themselves are never used. -/
def applyVotes (proofValid : Bool) : List Nat → List Question → Except String (List Question)
  | [], qs => .ok qs
  | _ :: vs, [] =>
      if proofValid then (applyVotes proofValid vs []).map (fun _ => [])
      else .error "Invalid input proof"
  | _ :: vs, q :: qs =>
      if proofValid then (applyVotes proofValid vs qs).map (fun qs' => bumpFirstOption q :: qs')
      else .error "Invalid input proof"

/-- Function `submitVotes`, with its modifiers in source order:
`surveyExists`, `surveyActive`, `hasNotVoted`, then the length check and loop. -/
def submitVotes (s : SafePollState) (caller surveyId : Nat)
    (encryptedVotes : List Nat) (proofValid : Bool) : Except String SafePollState :=
  if ¬ surveyExists s surveyId then .error "Survey does not exist"
  else if (surveyOf s surveyId).isActive = false then .error "Survey is not active"
  else if caller ∈ (surveyOf s surveyId).hasVoted then .error "Already voted in this survey"
  else if encryptedVotes.length ≠ (surveyOf s surveyId).questionCount then
    .error "Vote count mismatch with question count"
  else
    (applyVotes proofValid encryptedVotes (surveyOf s surveyId).questions).map (fun qs' =>
      { s with
        surveys := s.surveys.set (surveyId - 1)
          { surveyOf s surveyId with
              questions := qs',
              hasVoted := caller :: (surveyOf s surveyId).hasVoted,
              totalVotes := (surveyOf s surveyId).totalVotes + 1 },
        events := s.events ++ [Ev.voteSubmitted surveyId caller] })

/-- Function `endSurvey`: modifiers `surveyExists` and `onlyCreator` only — the
code has no check of `isActive`. -/
def endSurvey (s : SafePollState) (caller surveyId : Nat) : Except String SafePollState :=
  if ¬ surveyExists s surveyId then .error "Survey does not exist"
  else if (surveyOf s surveyId).creator ≠ caller then
    .error "Only survey creator can perform this action"
  else
    .ok { s with
      surveys := s.surveys.set (surveyId - 1) { surveyOf s surveyId with isActive := false },
      events := s.events ++ [Ev.surveyEnded surveyId] }

/-- Function `requestDecryption`: guards, then the double loop collecting every
option accumulator handle, question index ascending and option index ascending,
handed to `FHE.requestDecryption`.  The contract discards the oracle's request
id and writes no storage. -/
def requestDecryption (s : SafePollState) (caller surveyId : Nat) :
    Except String (List Nat) :=
  if ¬ surveyExists s surveyId then .error "Survey does not exist"
  else if (surveyOf s surveyId).creator ≠ caller then
    .error "Only survey creator can perform this action"
  else if (surveyOf s surveyId).isActive then .error "Survey must be ended first"
  else if (surveyOf s surveyId).resultsDecrypted then .error "Results already decrypted"
  else
    .ok (List.flatten ((List.range (surveyOf s surveyId).questionCount).map (fun i =>
      let q := (surveyOf s surveyId).questions.getD i default
      (List.range q.options.length).map (fun j => q.optionCounts.getD j 0))))

/-- Function `decryptionCallback`: `FHE.checkSignatures` (modelled by the
`proofValid` flag, checked against no contract storage), `abi.decode` of the
cleartexts (already modelled as a list), then `return true`.  No storage is
read or written and no event is emitted. -/
def decryptionCallback (s : SafePollState) (_requestId : Nat)
    (_cleartexts : List Nat) (proofValid : Bool) : Except String (SafePollState × Bool) :=
  if proofValid then .ok (s, true) else .error "Invalid KMS signatures"

/-- The contract's external state-mutating entry points as transactions. -/
inductive Op where
  | create (caller : Nat) (title description : String)
      (questionTexts : List String) (questionOptions : List (List String)) (timestamp : Nat)
  | vote (caller surveyId : Nat) (encryptedVotes : List Nat) (proofValid : Bool)
  | endSurvey (caller surveyId : Nat)
  | requestDec (caller surveyId : Nat)
  | callback (requestId : Nat) (cleartexts : List Nat) (proofValid : Bool)
  deriving DecidableEq, Repr

/-- Transaction semantics: a reverted call rolls every write back, so the
post-state of a failed call is the pre-state.  `requestDecryption` writes no
storage even on success. -/
def exec (s : SafePollState) : Op → SafePollState
  | .create caller title description qts qos timestamp =>
      match createSurvey s caller title description qts qos timestamp with
      | .ok (s', _) => s'
      | .error _ => s
  | .vote caller surveyId votes proofValid =>
      match submitVotes s caller surveyId votes proofValid with
      | .ok s' => s'
      | .error _ => s
  | .endSurvey caller surveyId =>
      match endSurvey s caller surveyId with
      | .ok s' => s'
      | .error _ => s
  | .requestDec _ _ => s
  | .callback requestId cleartexts proofValid =>
      match decryptionCallback s requestId cleartexts proofValid with
      | .ok (s', _) => s'
      | .error _ => s

/-- States reachable from a fresh deployment by any sequence of transactions. -/
inductive Reachable : SafePollState → Prop where
  | init : Reachable initialState
  | step (s : SafePollState) (op : Op) : Reachable s → Reachable (exec s op)

/-- Spec-side tally of one question, following the specification's algorithm
text: for each option index `o`, homomorphically add 1 if the encrypted choice
equals `o` and 0 otherwise to that option's accumulator.  Used only to compare
the specified algorithm against the implemented one. -/
def specTallyQuestion (choice : Nat) (counts : List Nat) : List Nat :=
  (List.range counts.length).map (fun o =>
    (counts.getD o 0 + (if choice = o then 1 else 0)) % m32)

/-- One-question scenario: survey 1 created by address 1, options A and B. -/
def st1 : SafePollState := exec initialState (.create 1 "T" "D" ["Q"] [["A", "B"]] 0)

/-- Address 2 votes on survey 1 with encrypted choice 1 (option B). -/
def stV : SafePollState := exec st1 (.vote 2 1 [1] true)

/-- The creator ends survey 1 of the one-question scenario. -/
def stE : SafePollState := exec stV (.endSurvey 1 1)

/-- Two-question scenario: survey 1 by address 1 with options A,B and X,Y,Z. -/
def st2q : SafePollState :=
  exec initialState (.create 1 "T2" "D2" ["Q1", "Q2"] [["A", "B"], ["X", "Y", "Z"]] 0)

/-- Address 2 votes `[0, 1]` on the two-question survey. -/
def st2v : SafePollState := exec st2q (.vote 2 1 [0, 1] true)

/-- The creator ends the two-question survey. -/
def st2e : SafePollState := exec st2v (.endSurvey 1 1)

/-- Inductive invariant of reachable contract states: the survey counter
matches the table, and every stored survey has consistent question bookkeeping,
a duplicate-free voter set matching `totalVotes`, and option accumulators that
hold the whole vote mass on option 0 (modulo `2 ^ 32`). -/
def Inv (s : SafePollState) : Prop :=
  s.surveyCounter = s.surveys.length ∧
  ∀ sv ∈ s.surveys,
    sv.questionCount = sv.questions.length ∧
    sv.hasVoted.Nodup ∧
    sv.totalVotes = sv.hasVoted.length ∧
    ∀ q ∈ sv.questions,
      2 ≤ q.options.length ∧
      q.optionCounts = sv.totalVotes % m32 :: List.replicate (q.options.length - 1) 0

/-- After `pump n` below, the voters recorded in `hasVoted`, most recent first. -/
def voterList (n : Nat) : List Nat := (List.range n).reverse.map (fun k => k + 2)

/-- The event log after `pump n` below. -/
def pumpEvents (n : Nat) : List Ev :=
  Ev.surveyCreated 1 1 "T" :: (List.range n).map (fun k => Ev.voteSubmitted 1 (k + 2))

/-- `n` distinct voters (addresses `2, …, n + 1`) vote on the one-question
survey of `st1`, one after the other. -/
def pump : Nat → SafePollState
  | 0 => st1
  | n + 1 => exec (pump n) (.vote (n + 2) 1 [0] true)

/-- Closed form of `pump n`. -/
def pumpState (n : Nat) : SafePollState :=
  { surveyCounter := 1,
    surveys := [{ id := 1, title := "T", description := "D", creator := 1,
                  isActive := true, resultsDecrypted := false, questionCount := 1,
                  questions := [{ text := "Q", options := ["A", "B"],
                                  optionCounts := [n % m32, 0] }],
                  hasVoted := voterList n, totalVotes := n, createdAt := 0 }],
    decryptedResults := [],
    events := pumpEvents n }

/-- Number of ciphertext handles contributed to the decryption batch of survey
`surveyId` by the questions with index below `i`. -/
def ctOffset (s : SafePollState) (surveyId i : Nat) : Nat :=
  ((List.range i).map
    (fun k => ((surveyOf s surveyId).questions.getD k default).options.length)).sum

theorem exceptMap_isOk {ε α β : Type} (f : α → β) (x : Except ε α) :
    (Except.map f x).isOk = x.isOk := by
  cases x <;> rfl

theorem getD_set_list {α : Type} (l : List α) (k : Nat) (b : α) (n : Nat) (d : α) :
    (l.set k b).getD n d = if k = n ∧ k < l.length then b else l.getD n d := by
  rw [List.getD_eq_getElem?_getD, List.getD_eq_getElem?_getD, List.getElem?_set]
  by_cases hk : k = n
  · subst hk
    by_cases hl : k < l.length
    · simp [hl]
    · simp [hl, List.getElem?_eq_none (Nat.le_of_not_lt hl)]
  · simp [hk]

theorem getD_append_single {α : Type} (l : List α) (b : α) (n : Nat) (d : α) :
    (l ++ [b]).getD n d =
      if n < l.length then l.getD n d else if n = l.length then b else d := by
  by_cases h1 : n < l.length
  · rw [if_pos h1]
    exact List.getD_append _ _ _ _ h1
  · rw [List.getD_append_right _ _ _ _ (Nat.le_of_not_lt h1)]
    by_cases h2 : n = l.length
    · subst h2
      simp [h1]
    · have h3 : l.length < n := Nat.lt_of_le_of_ne (Nat.le_of_not_lt h1) (Ne.symm h2)
      have h4 : n - l.length = (n - l.length - 1) + 1 := by omega
      rw [h4]
      simp [h1, h2]

theorem sum_cons_replicate_zero (a k : Nat) : (a :: List.replicate k 0).sum = a := by
  simp [List.sum_replicate]

theorem buildQuestions_sound :
    ∀ (l : List (String × List String)) (qs : List Question), buildQuestions l = .ok qs →
      ∀ q ∈ qs, 2 ≤ q.options.length ∧ q.optionCounts = List.replicate q.options.length 0 := by
  intro l
  induction l with
  | nil =>
      intro qs h q hq
      simp only [buildQuestions] at h
      cases h
      simp at hq
  | cons p rest ih =>
      intro qs h q hq
      obtain ⟨t, os⟩ := p
      simp only [buildQuestions] at h
      by_cases ht : t = ""
      · simp [ht] at h
      · rw [if_neg ht] at h
        by_cases hos : os.length < 2
        · simp [hos] at h
        · rw [if_neg hos] at h
          cases hrest : buildQuestions rest with
          | error e => rw [hrest] at h; cases h
          | ok qs' =>
              rw [hrest] at h
              simp only [Except.map] at h
              injection h with h
              subst h
              rcases List.mem_cons.mp hq with hq | hq
              · subst hq
                exact ⟨Nat.le_of_not_lt hos, rfl⟩
              · exact ih qs' hrest q hq

theorem buildQuestions_isOk_iff :
    ∀ (l : List (String × List String)),
      (buildQuestions l).isOk = true ↔ ∀ p ∈ l, p.1 ≠ "" ∧ 2 ≤ p.2.length := by
  intro l
  induction l with
  | nil =>
      constructor
      · intro _ p hp
        simp at hp
      · intro _
        rfl
  | cons p rest ih =>
      obtain ⟨t, os⟩ := p
      constructor
      · intro h q hq
        simp only [buildQuestions] at h
        by_cases ht : t = ""
        · rw [if_pos ht] at h
          exact Bool.noConfusion h
        · rw [if_neg ht] at h
          by_cases hos : os.length < 2
          · rw [if_pos hos] at h
            exact Bool.noConfusion h
          · rw [if_neg hos, exceptMap_isOk] at h
            rcases List.mem_cons.mp hq with hq | hq
            · subst hq
              exact ⟨ht, Nat.le_of_not_lt hos⟩
            · exact (ih.mp h) q hq
      · intro h
        have ht : t ≠ "" := (h (t, os) (List.mem_cons_self _ _)).1
        have hos : ¬ os.length < 2 := Nat.not_lt.mpr (h (t, os) (List.mem_cons_self _ _)).2
        simp only [buildQuestions]
        rw [if_neg ht, if_neg hos, exceptMap_isOk]
        exact ih.mpr (fun q hq => h q (List.mem_cons_of_mem _ hq))

theorem applyVotes_ok_eq_map :
    ∀ (votes : List Nat) (qs : List Question), votes.length = qs.length →
      applyVotes true votes qs = .ok (qs.map bumpFirstOption) := by
  intro votes
  induction votes with
  | nil =>
      intro qs h
      cases qs with
      | nil => rfl
      | cons q qs => simp at h
  | cons v vs ih =>
      intro qs h
      cases qs with
      | nil => simp at h
      | cons q qs =>
          simp only [applyVotes, if_pos trivial, List.map_cons]
          rw [ih qs (by simpa using h)]
          rfl

theorem applyVotes_blind :
    ∀ (p : Bool) (v1 v2 : List Nat) (qs : List Question), v1.length = v2.length →
      applyVotes p v1 qs = applyVotes p v2 qs := by
  intro p v1
  induction v1 with
  | nil =>
      intro v2 qs h
      cases v2 with
      | nil => rfl
      | cons b v2 => simp at h
  | cons a v1 ih =>
      intro v2 qs h
      cases v2 with
      | nil => simp at h
      | cons b v2 =>
          cases qs with
          | nil =>
              simp only [applyVotes]
              rw [ih v2 [] (by simpa using h)]
          | cons q qs =>
              simp only [applyVotes]
              rw [ih v2 qs (by simpa using h)]

theorem createSurvey_ok_elim {s : SafePollState} {caller : Nat} {title description : String}
    {qts : List String} {qos : List (List String)} {ts : Nat} {s' : SafePollState} {sid : Nat}
    (h : createSurvey s caller title description qts qos ts = .ok (s', sid)) :
    title ≠ "" ∧ qts ≠ [] ∧ qts.length = qos.length ∧
    ∃ qs, buildQuestions (qts.zip qos) = .ok qs ∧
      sid = s.surveyCounter + 1 ∧
      s' = { s with
        surveyCounter := s.surveyCounter + 1,
        surveys := s.surveys ++
          [{ id := s.surveyCounter + 1, title := title, description := description,
             creator := caller, isActive := true, resultsDecrypted := false,
             questionCount := qts.length, questions := qs,
             hasVoted := [], totalVotes := 0, createdAt := ts }],
        events := s.events ++ [Ev.surveyCreated (s.surveyCounter + 1) caller title] } := by
  unfold createSurvey at h
  by_cases h1 : title = ""
  · rw [if_pos h1] at h
    exact Except.noConfusion h
  · rw [if_neg h1] at h
    by_cases h2 : qts = []
    · rw [if_pos h2] at h
      exact Except.noConfusion h
    · rw [if_neg h2] at h
      by_cases h3 : qts.length ≠ qos.length
      · rw [if_pos h3] at h
        exact Except.noConfusion h
      · rw [if_neg h3] at h
        cases hb : buildQuestions (qts.zip qos) with
        | error e =>
            rw [hb] at h
            exact Except.noConfusion h
        | ok qs =>
            rw [hb] at h
            simp only [Except.map] at h
            injection h with h
            injection h with hs hsid
            exact ⟨h1, h2, Classical.not_not.mp h3, qs, rfl, hsid.symm, hs.symm⟩

theorem submitVotes_ok_elim {s : SafePollState} {caller surveyId : Nat}
    {votes : List Nat} {p : Bool} {s' : SafePollState}
    (h : submitVotes s caller surveyId votes p = .ok s') :
    surveyExists s surveyId ∧ (surveyOf s surveyId).isActive = true ∧
    caller ∉ (surveyOf s surveyId).hasVoted ∧
    votes.length = (surveyOf s surveyId).questionCount ∧
    ∃ qs', applyVotes p votes (surveyOf s surveyId).questions = .ok qs' ∧
      s' = { s with
        surveys := s.surveys.set (surveyId - 1)
          { surveyOf s surveyId with
              questions := qs',
              hasVoted := caller :: (surveyOf s surveyId).hasVoted,
              totalVotes := (surveyOf s surveyId).totalVotes + 1 },
        events := s.events ++ [Ev.voteSubmitted surveyId caller] } := by
  unfold submitVotes at h
  by_cases h1 : surveyExists s surveyId
  swap
  · rw [if_pos h1] at h
    exact Except.noConfusion h
  · rw [if_neg (not_not_intro h1)] at h
    by_cases h2 : (surveyOf s surveyId).isActive = false
    · rw [if_pos h2] at h
      exact Except.noConfusion h
    · rw [if_neg h2] at h
      by_cases h3 : caller ∈ (surveyOf s surveyId).hasVoted
      · rw [if_pos h3] at h
        exact Except.noConfusion h
      · rw [if_neg h3] at h
        by_cases h4 : votes.length ≠ (surveyOf s surveyId).questionCount
        · rw [if_pos h4] at h
          exact Except.noConfusion h
        · rw [if_neg h4] at h
          cases ha : applyVotes p votes (surveyOf s surveyId).questions with
          | error e =>
              rw [ha] at h
              exact Except.noConfusion h
          | ok qs' =>
              rw [ha] at h
              simp only [Except.map] at h
              injection h with h
              exact ⟨h1, Bool.of_not_eq_false h2, h3, Classical.not_not.mp h4, qs', rfl, h.symm⟩

theorem endSurvey_ok_elim {s : SafePollState} {caller surveyId : Nat} {s' : SafePollState}
    (h : endSurvey s caller surveyId = .ok s') :
    surveyExists s surveyId ∧ (surveyOf s surveyId).creator = caller ∧
    s' = { s with
      surveys := s.surveys.set (surveyId - 1) { surveyOf s surveyId with isActive := false },
      events := s.events ++ [Ev.surveyEnded surveyId] } := by
  unfold endSurvey at h
  by_cases h1 : surveyExists s surveyId
  swap
  · rw [if_pos h1] at h
    exact Except.noConfusion h
  · rw [if_neg (not_not_intro h1)] at h
    by_cases h2 : (surveyOf s surveyId).creator ≠ caller
    · rw [if_pos h2] at h
      exact Except.noConfusion h
    · rw [if_neg h2] at h
      injection h with h
      exact ⟨h1, Classical.not_not.mp h2, h.symm⟩

theorem requestDecryption_ok_elim {s : SafePollState} {caller surveyId : Nat} {cts : List Nat}
    (h : requestDecryption s caller surveyId = .ok cts) :
    surveyExists s surveyId ∧ (surveyOf s surveyId).creator = caller ∧
    (surveyOf s surveyId).isActive = false ∧ (surveyOf s surveyId).resultsDecrypted = false ∧
    cts = List.flatten ((List.range (surveyOf s surveyId).questionCount).map (fun i =>
      (List.range ((surveyOf s surveyId).questions.getD i default).options.length).map
        (fun j => ((surveyOf s surveyId).questions.getD i default).optionCounts.getD j 0))) := by
  unfold requestDecryption at h
  by_cases h1 : surveyExists s surveyId
  swap
  · rw [if_pos h1] at h
    exact Except.noConfusion h
  · rw [if_neg (not_not_intro h1)] at h
    by_cases h2 : (surveyOf s surveyId).creator ≠ caller
    · rw [if_pos h2] at h
      exact Except.noConfusion h
    · rw [if_neg h2] at h
      by_cases h3 : (surveyOf s surveyId).isActive
      · rw [if_pos h3] at h
        exact Except.noConfusion h
      · rw [if_neg h3] at h
        by_cases h4 : (surveyOf s surveyId).resultsDecrypted
        · rw [if_pos h4] at h
          exact Except.noConfusion h
        · rw [if_neg h4] at h
          injection h with h
          exact ⟨h1, Classical.not_not.mp h2, Bool.eq_false_iff.mpr h3,
            Bool.eq_false_iff.mpr h4, h.symm⟩

theorem getD_mem_of_lt {α : Type} {l : List α} {n : Nat} (d : α) (h : n < l.length) :
    l.getD n d ∈ l := by
  rw [List.getD_eq_getElem l d h]
  exact List.getElem_mem h

theorem buildQuestions_length :
    ∀ (l : List (String × List String)) (qs : List Question), buildQuestions l = .ok qs →
      qs.length = l.length := by
  intro l
  induction l with
  | nil =>
      intro qs h
      simp only [buildQuestions] at h
      injection h with h
      subst h
      rfl
  | cons p rest ih =>
      intro qs h
      obtain ⟨t, os⟩ := p
      simp only [buildQuestions] at h
      by_cases ht : t = ""
      · rw [if_pos ht] at h
        exact Except.noConfusion h
      · rw [if_neg ht] at h
        by_cases hos : os.length < 2
        · rw [if_pos hos] at h
          exact Except.noConfusion h
        · rw [if_neg hos] at h
          cases hrest : buildQuestions rest with
          | error e =>
              rw [hrest] at h
              exact Except.noConfusion h
          | ok qs' =>
              rw [hrest] at h
              simp only [Except.map] at h
              injection h with h
              subst h
              simp [ih qs' hrest]

theorem applyVotes_ok_eq :
    ∀ (p : Bool) (vs : List Nat) (qs qs' : List Question),
      applyVotes p vs qs = .ok qs' → vs.length = qs.length →
      qs' = qs.map bumpFirstOption := by
  intro p vs
  induction vs with
  | nil =>
      intro qs qs' h hlen
      cases qs with
      | nil =>
          injection h with h
          subst h
          rfl
      | cons q qs => simp at hlen
  | cons v vs ih =>
      intro qs qs' h hlen
      cases qs with
      | nil => simp at hlen
      | cons q qs =>
          simp only [applyVotes] at h
          cases p with
          | false => exact Except.noConfusion h
          | true =>
              rw [if_pos rfl] at h
              cases hrec : applyVotes true vs qs with
              | error e =>
                  rw [hrec] at h
                  exact Except.noConfusion h
              | ok rest =>
                  rw [hrec] at h
                  simp only [Except.map] at h
                  injection h with h
                  subst h
                  simp [ih qs rest hrec (by simpa using hlen)]

theorem inv_initialState : Inv initialState := by
  refine ⟨rfl, ?_⟩
  intro sv hsv
  simp [initialState] at hsv

theorem inv_exec (s : SafePollState) (op : Op) (hInv : Inv s) : Inv (exec s op) := by
  obtain ⟨hcount, hsurv⟩ := hInv
  cases op with
  | create caller title description qts qos ts =>
      simp only [exec]
      cases hc : createSurvey s caller title description qts qos ts with
      | error e => exact ⟨hcount, hsurv⟩
      | ok pair =>
          obtain ⟨s', sid⟩ := pair
          obtain ⟨-, -, hlen, qs, hb, -, hs'⟩ := createSurvey_ok_elim hc
          subst hs'
          refine ⟨?_, ?_⟩
          · simp [hcount]
          · intro sv hsv
            rcases List.mem_append.mp hsv with hsv | hsv
            · exact hsurv sv hsv
            · rw [List.mem_singleton.mp hsv]
              refine ⟨?_, List.nodup_nil, rfl, ?_⟩
              · have hql : qs.length = qts.length := by
                  have h1 := buildQuestions_length _ _ hb
                  rw [List.length_zip] at h1
                  omega
                simpa using hql.symm
              · intro q hq
                obtain ⟨hq2, hqc⟩ := buildQuestions_sound _ _ hb q hq
                refine ⟨hq2, ?_⟩
                obtain ⟨len, hlen2⟩ : ∃ k, q.options.length = k + 1 := by
                  refine ⟨q.options.length - 1, ?_⟩
                  omega
                rw [hqc, hlen2]
                simp [List.replicate_succ, Nat.zero_mod]
  | vote caller surveyId votes p =>
      simp only [exec]
      cases hc : submitVotes s caller surveyId votes p with
      | error e => exact ⟨hcount, hsurv⟩
      | ok s' =>
          obtain ⟨hex, hact, hnv, hvlen, qs', happ, hs'⟩ := submitVotes_ok_elim hc
          subst hs'
          have hidx : surveyId - 1 < s.surveys.length := by
            obtain ⟨hx1, hx2⟩ := hex
            omega
          have hmem : surveyOf s surveyId ∈ s.surveys := getD_mem_of_lt default hidx
          obtain ⟨hqc, hnd, htv, hq⟩ := hsurv _ hmem
          have hqs' : qs' = (surveyOf s surveyId).questions.map bumpFirstOption :=
            applyVotes_ok_eq p votes _ _ happ (by rw [hvlen, hqc])
          refine ⟨?_, ?_⟩
          · simp [hcount]
          · intro sv hsv
            rcases List.mem_or_eq_of_mem_set hsv with hsv | hsv
            · exact hsurv sv hsv
            · subst hsv
              refine ⟨?_, List.Nodup.cons hnv hnd, by simp [htv], ?_⟩
              · simp [hqc, hqs']
              · intro q hq2
                simp only [hqs', List.mem_map] at hq2
                obtain ⟨q0, hq0, hbump⟩ := hq2
                obtain ⟨hop, hcnt⟩ := hq _ hq0
                subst hbump
                refine ⟨by simpa [bumpFirstOption] using hop, ?_⟩
                simp only [bumpFirstOption, hcnt]
                simp [List.getD_cons_zero, Nat.mod_add_mod]
  | endSurvey caller surveyId =>
      simp only [exec]
      cases hc : endSurvey s caller surveyId with
      | error e => exact ⟨hcount, hsurv⟩
      | ok s' =>
          obtain ⟨hex, hcr, hs'⟩ := endSurvey_ok_elim hc
          subst hs'
          refine ⟨by simp [hcount], ?_⟩
          intro sv hsv
          rcases List.mem_or_eq_of_mem_set hsv with hsv | hsv
          · exact hsurv sv hsv
          · subst hsv
            have hidx : surveyId - 1 < s.surveys.length := by
              obtain ⟨hx1, hx2⟩ := hex
              omega
            obtain ⟨hqc, hnd, htv, hq⟩ := hsurv _ (getD_mem_of_lt default hidx)
            exact ⟨hqc, hnd, htv, hq⟩
  | requestDec caller surveyId => exact ⟨hcount, hsurv⟩
  | callback requestId cleartexts proofValid =>
      cases proofValid with
      | false => exact ⟨hcount, hsurv⟩
      | true => exact ⟨hcount, hsurv⟩

theorem reachable_inv : ∀ (s : SafePollState), Reachable s → Inv s := by
  intro s h
  induction h with
  | init => exact inv_initialState
  | step s op hs ih => exact inv_exec s op ih

theorem flatten_range_map_length (f : Nat → List Nat) :
    ∀ n, (List.flatten ((List.range n).map f)).length =
      ((List.range n).map (fun k => (f k).length)).sum := by
  intro n
  induction n with
  | zero => rfl
  | succ n ih => simp [List.range_succ, ih]

theorem flatten_range_map_getD :
    ∀ (i : Nat) (f : Nat → List Nat) (n j : Nat), i < n → j < (f i).length →
      (List.flatten ((List.range n).map f)).getD
        (((List.range i).map (fun k => (f k).length)).sum + j) 0 = (f i).getD j 0 := by
  intro i
  induction i with
  | zero =>
      intro f n j hi hj
      obtain ⟨m, rfl⟩ : ∃ m, n = m + 1 := ⟨n - 1, by omega⟩
      simp only [List.range_succ_eq_map, List.map_cons, List.flatten_cons, List.range_zero,
        List.map_nil, List.sum_nil, Nat.zero_add]
      exact List.getD_append _ _ _ _ hj
  | succ i ih =>
      intro f n j hi hj
      obtain ⟨m, rfl⟩ : ∃ m, n = m + 1 := ⟨n - 1, by omega⟩
      simp only [List.range_succ_eq_map, List.map_cons, List.flatten_cons, List.map_map,
        List.sum_cons, Function.comp]
      rw [Nat.add_assoc, List.getD_append_right _ _ _ _ (Nat.le_add_right _ _),
        Nat.add_sub_cancel_left]
      have h1 := ih (fun k => f (k + 1)) m j (by omega) (by simpa using hj)
      simpa using h1

theorem getD_map_range (g : Nat → Nat) (len j : Nat) (hj : j < len) :
    ((List.range len).map g).getD j 0 = g j := by
  rw [List.getD_eq_getElem _ 0 (by simpa using hj)]
  simp

theorem voterList_not_mem (n : Nat) : (n + 2) ∉ voterList n := by
  unfold voterList
  simp only [List.mem_map, List.mem_reverse, List.mem_range, not_exists]
  intro k hk
  omega

theorem voterList_succ (n : Nat) : voterList (n + 1) = (n + 2) :: voterList n := by
  simp [voterList, List.range_succ]

theorem pumpEvents_succ (n : Nat) :
    pumpEvents (n + 1) = pumpEvents n ++ [Ev.voteSubmitted 1 (n + 2)] := by
  simp [pumpEvents, List.range_succ]

theorem pump_step (n : Nat) :
    submitVotes (pumpState n) (n + 2) 1 [0] true = .ok (pumpState (n + 1)) := by
  have hso : surveyOf (pumpState n) 1 =
      { id := 1, title := "T", description := "D", creator := 1,
        isActive := true, resultsDecrypted := false, questionCount := 1,
        questions := [{ text := "Q", options := ["A", "B"],
                        optionCounts := [n % m32, 0] }],
        hasVoted := voterList n, totalVotes := n, createdAt := 0 } := rfl
  unfold submitVotes
  rw [if_neg (not_not_intro ⟨Nat.zero_lt_one, Nat.le_refl 1⟩)]
  rw [hso]
  rw [if_neg (by simp)]
  rw [if_neg (voterList_not_mem n)]
  rw [if_neg (by simp)]
  show Except.ok _ = _
  rw [Except.ok.injEq]
  simp only [pumpState, voterList_succ, pumpEvents_succ, bumpFirstOption]
  simp [List.getD_cons_zero, Nat.mod_add_mod]

theorem pump_spec : ∀ (n : Nat), pump n = pumpState n := by
  intro n
  induction n with
  | zero => decide
  | succ n ih =>
      show exec (pump n) (.vote (n + 2) 1 [0] true) = pumpState (n + 1)
      rw [ih]
      simp only [exec]
      rw [pump_step n]

theorem pump_reachable : ∀ (n : Nat), Reachable (pump n) := by
  intro n
  induction n with
  | zero =>
      show Reachable (exec initialState (Op.create 1 "T" "D" ["Q"] [["A", "B"]] 0))
      exact Reachable.step _ _ Reachable.init
  | succ n ih => exact Reachable.step _ _ ih

theorem submitVotes_voted_error {s : SafePollState} {caller surveyId : Nat}
    {votes : List Nat} {p : Bool}
    (h : caller ∈ (surveyOf s surveyId).hasVoted) :
    ∃ e, submitVotes s caller surveyId votes p = .error e := by
  unfold submitVotes
  by_cases h1 : surveyExists s surveyId
  swap
  · exact ⟨"Survey does not exist", by rw [if_pos h1]⟩
  · rw [if_neg (not_not_intro h1)]
    by_cases h2 : (surveyOf s surveyId).isActive = false
    · exact ⟨"Survey is not active", by rw [if_pos h2]⟩
    · rw [if_neg h2]
      exact ⟨"Already voted in this survey", by rw [if_pos h]⟩

theorem hasVoted_mono (s : SafePollState) (op : Op) (surveyId a : Nat)
    (h : a ∈ (surveyOf s surveyId).hasVoted) :
    a ∈ (surveyOf (exec s op) surveyId).hasVoted := by
  have hdef : (default : Survey).hasVoted = ([] : List Nat) := rfl
  cases op with
  | create caller title description qts qos ts =>
      simp only [exec]
      cases hc : createSurvey s caller title description qts qos ts with
      | error e => exact h
      | ok pair =>
          obtain ⟨s', sid⟩ := pair
          obtain ⟨-, -, -, qs, -, -, hs'⟩ := createSurvey_ok_elim hc
          subst hs'
          unfold surveyOf at h ⊢
          rw [getD_append_single]
          by_cases hlt : surveyId - 1 < s.surveys.length
          · rw [if_pos hlt]
            exact h
          · rw [List.getD_eq_default _ _ (Nat.le_of_not_lt hlt), hdef] at h
            cases h
  | vote caller sid votes p =>
      simp only [exec]
      cases hc : submitVotes s caller sid votes p with
      | error e => exact h
      | ok s' =>
          obtain ⟨-, -, -, -, qs', -, hs'⟩ := submitVotes_ok_elim hc
          subst hs'
          unfold surveyOf at h ⊢
          rw [getD_set_list]
          by_cases hcond : sid - 1 = surveyId - 1 ∧ sid - 1 < s.surveys.length
          · rw [if_pos hcond]
            obtain ⟨hidx, -⟩ := hcond
            show a ∈ caller :: (s.surveys.getD (sid - 1) default).hasVoted
            rw [hidx]
            exact List.mem_cons_of_mem _ h
          · rw [if_neg hcond]
            exact h
  | endSurvey caller sid =>
      simp only [exec]
      cases hc : endSurvey s caller sid with
      | error e => exact h
      | ok s' =>
          obtain ⟨-, -, hs'⟩ := endSurvey_ok_elim hc
          subst hs'
          unfold surveyOf at h ⊢
          rw [getD_set_list]
          by_cases hcond : sid - 1 = surveyId - 1 ∧ sid - 1 < s.surveys.length
          · rw [if_pos hcond]
            obtain ⟨hidx, -⟩ := hcond
            show a ∈ (s.surveys.getD (sid - 1) default).hasVoted
            rw [hidx]
            exact h
          · rw [if_neg hcond]
            exact h
  | requestDec caller sid => exact h
  | callback requestId cleartexts proofValid =>
      cases proofValid with
      | false => exact h
      | true => exact h

/-- Claim C1.  The claim states that `submitVotes` homomorphically adds the
vote's unit to exactly the chosen option of each question, by an unconditional
loop over all options computing `counter[o] += (choice == o) ? 1 : 0`.  The
code instead adds 1 to option 0 unconditionally and discards the encrypted
choice: with one question (options A, B) and an encrypted choice of 1, the
accumulators become `[1, 0]`, while the algorithm the specification describes
(`specTallyQuestion`) yields `[0, 1]`. -/
theorem submitVotes_tally_divergence :
    ((surveyOf stV 1).questions.getD 0 default).optionCounts = [1, 0] ∧
    specTallyQuestion 1 [0, 0] = [0, 1] ∧
    ((surveyOf stV 1).questions.getD 0 default).optionCounts ≠ specTallyQuestion 1 [0, 0] :=
  ⟨by decide, by decide, by decide⟩

/-- Claim C2.  The claim states that a valid `decryptionCallback` splits the
cleartexts per question, stores them as `DecryptedResults`, sets
`resultsDecrypted` to `true`, deletes the pending record and emits
`ResultsDecrypted`.  The code's callback only checks the oracle signatures,
decodes the cleartexts and returns `true`: on the ended two-question survey it
changes no storage at all — `resultsDecrypted` stays `false`, nothing is
stored in `decryptedResults`, and no `ResultsDecrypted` event is emitted. -/
theorem decryptionCallback_stores_nothing :
    decryptionCallback st2e 7 [1, 0, 1, 0, 0] true = .ok (st2e, true) ∧
    exec st2e (Op.callback 7 [1, 0, 1, 0, 0] true) = st2e ∧
    (surveyOf (exec st2e (Op.callback 7 [1, 0, 1, 0, 0] true)) 1).resultsDecrypted = false ∧
    (exec st2e (Op.callback 7 [1, 0, 1, 0, 0] true)).decryptedResults = [] ∧
    Ev.resultsDecrypted 1 ∉ (exec st2e (Op.callback 7 [1, 0, 1, 0, 0] true)).events :=
  ⟨rfl, rfl, by decide, by decide, by decide⟩

/-- Claim C3.  The claim states that `requestDecryption` registers a pending
request which the first successful callback consumes, so that a second
callback with the same request id always fails.  The contract registers no
pending-request record (it even discards the oracle's request id), and the
callback consumes nothing: after a first successful callback for request id 7,
an identical second callback succeeds again. -/
theorem decryptionCallback_replay_succeeds :
    (decryptionCallback st2e 7 [1, 0, 1, 0, 0] true).isOk = true ∧
    (decryptionCallback (exec st2e (Op.callback 7 [1, 0, 1, 0, 0] true)) 7
      [1, 0, 1, 0, 0] true).isOk = true :=
  ⟨by decide, by decide⟩

/-- Claim C4, counterexample.  The claim states that `endSurvey` on an
already-ended survey (`isActive = false`) is rejected.  In `stE` survey 1 is
already ended, yet a second `endSurvey` call by its creator succeeds. -/
theorem endSurvey_inactive_accepted :
    (surveyOf stE 1).isActive = false ∧ (endSurvey stE 1 1).isOk = true :=
  ⟨by decide, by decide⟩

/-- Claim C4, amended.  `endSurvey` succeeds exactly when the survey exists and
the caller is its creator — the code never checks `isActive`, so re-ending an
ended survey also succeeds — and every successful call leaves the survey's
`isActive` equal to `false` (hence the value change true-to-false happens at
most once, but the repeated call is not rejected). -/
theorem endSurvey_guard :
    ∀ (s : SafePollState) (caller surveyId : Nat),
      ((endSurvey s caller surveyId).isOk = true ↔
        (surveyExists s surveyId ∧ (surveyOf s surveyId).creator = caller)) ∧
      (∀ s', endSurvey s caller surveyId = .ok s' →
        (surveyOf s' surveyId).isActive = false) := by
  intro s caller surveyId
  constructor
  · constructor
    · intro h
      cases he : endSurvey s caller surveyId with
      | error e =>
          rw [he] at h
          exact Bool.noConfusion h
      | ok s' =>
          obtain ⟨h1, h2, -⟩ := endSurvey_ok_elim he
          exact ⟨h1, h2⟩
    · rintro ⟨h1, h2⟩
      unfold endSurvey
      rw [if_neg (not_not_intro h1), if_neg (fun hne => hne h2)]
      rfl
  · intro s' hs'
    obtain ⟨h1, -, hs'⟩ := endSurvey_ok_elim hs'
    subst hs'
    unfold surveyOf
    rw [getD_set_list]
    by_cases hc : surveyId - 1 = surveyId - 1 ∧ surveyId - 1 < s.surveys.length
    · rw [if_pos hc]
    · rw [if_neg hc]
      have hge : s.surveys.length ≤ surveyId - 1 :=
        Nat.le_of_not_lt (fun hb => hc ⟨rfl, hb⟩)
      rw [List.getD_eq_default _ _ hge]
      rfl

/-- Witness for the amended claim C4, at the already-ended state `stV` →
`stE`: the concrete successful call leaves `isActive = false`. -/
theorem endSurvey_guard_witness : (surveyOf stE 1).isActive = false :=
  (endSurvey_guard stV 1 1).2 stE rfl

/-- Claim C5, counterexample.  The accumulators are `euint32`, so homomorphic
addition wraps modulo `2 ^ 32`: in the reachable state where `2 ^ 32` distinct
voters have voted on the one-question survey, option 0's accumulator has
wrapped to 0, so the sum of the option counts (0) differs from `totalVotes`
(`2 ^ 32`). -/
theorem mass_conservation_cex :
    Reachable (pump (2 ^ 32)) ∧
    ((surveyOf (pump (2 ^ 32)) 1).questions.getD 0 default).optionCounts.sum = 0 ∧
    (surveyOf (pump (2 ^ 32)) 1).totalVotes = 2 ^ 32 ∧
    ((surveyOf (pump (2 ^ 32)) 1).questions.getD 0 default).optionCounts.sum ≠
      (surveyOf (pump (2 ^ 32)) 1).totalVotes := by
  have hs := pump_spec (2 ^ 32)
  refine ⟨pump_reachable _, ?_, ?_, ?_⟩ <;>
    rw [hs] <;>
    simp [pumpState, surveyOf, m32, Nat.mod_self]

/-- Claim C5, amended.  Mass conservation modulo the 32-bit accumulator width:
in every reachable state, for every survey and every question, the sum of the
plaintext option accumulators equals `totalVotes % 2 ^ 32`, and equals
`totalVotes` exactly whenever fewer than `2 ^ 32` voters have voted. -/
theorem mass_conservation :
    ∀ (s : SafePollState), Reachable s →
      ∀ (i j : Nat), i < s.surveys.length →
        j < (s.surveys.getD i default).questions.length →
        ((s.surveys.getD i default).questions.getD j default).optionCounts.sum =
          (s.surveys.getD i default).totalVotes % m32 ∧
        ((s.surveys.getD i default).totalVotes < m32 →
          ((s.surveys.getD i default).questions.getD j default).optionCounts.sum =
            (s.surveys.getD i default).totalVotes) := by
  intro s hr i j hi hj
  obtain ⟨-, hsurv⟩ := reachable_inv s hr
  obtain ⟨-, -, -, hq⟩ := hsurv _ (getD_mem_of_lt default hi)
  obtain ⟨-, hcnt⟩ := hq _ (getD_mem_of_lt default hj)
  constructor
  · rw [hcnt, sum_cons_replicate_zero]
  · intro hlt
    rw [hcnt, sum_cons_replicate_zero, Nat.mod_eq_of_lt hlt]

/-- Witness for the amended claim C5, at the state after one vote on the
one-question survey. -/
theorem mass_conservation_witness :
    ((stV.surveys.getD 0 default).questions.getD 0 default).optionCounts.sum =
      (stV.surveys.getD 0 default).totalVotes % m32 ∧
    ((stV.surveys.getD 0 default).totalVotes < m32 →
      ((stV.surveys.getD 0 default).questions.getD 0 default).optionCounts.sum =
        (stV.surveys.getD 0 default).totalVotes) :=
  mass_conservation stV (Reachable.step _ _ (Reachable.step _ _ Reachable.init)) 0 0
    (by decide) (by decide)

/-- Claim C6.  One-vote invariant: in every reachable state every survey's
`hasVoted` list is duplicate-free with `totalVotes` equal to its size; no
transaction ever removes an identity from `hasVoted`; and a `submitVotes` call
from an identity already in `hasVoted` fails and leaves the state unchanged. -/
theorem one_vote_invariant :
    ∀ (s : SafePollState), Reachable s →
      (∀ (i : Nat), i < s.surveys.length →
        (s.surveys.getD i default).hasVoted.Nodup ∧
        (s.surveys.getD i default).totalVotes = (s.surveys.getD i default).hasVoted.length) ∧
      (∀ (op : Op) (surveyId a : Nat), a ∈ (surveyOf s surveyId).hasVoted →
        a ∈ (surveyOf (exec s op) surveyId).hasVoted) ∧
      (∀ (caller surveyId : Nat) (votes : List Nat) (p : Bool),
        caller ∈ (surveyOf s surveyId).hasVoted →
          (submitVotes s caller surveyId votes p).isOk = false ∧
          exec s (Op.vote caller surveyId votes p) = s) := by
  intro s hr
  obtain ⟨-, hsurv⟩ := reachable_inv s hr
  refine ⟨?_, hasVoted_mono s, ?_⟩
  · intro i hi
    obtain ⟨-, hnd, htv, -⟩ := hsurv _ (getD_mem_of_lt default hi)
    exact ⟨hnd, htv⟩
  · intro caller surveyId votes p hmem
    obtain ⟨e, he⟩ := submitVotes_voted_error hmem
    constructor
    · rw [he]
      rfl
    · simp only [exec]
      rw [he]

/-- Witness for claim C6: address 2 has already voted in `stV`; its second
vote fails and changes nothing. -/
theorem one_vote_invariant_witness :
    (submitVotes stV 2 1 [0] true).isOk = false ∧
    exec stV (Op.vote 2 1 [0] true) = stV :=
  (one_vote_invariant stV (Reachable.step _ _ (Reachable.step _ _ Reachable.init))).2.2
    2 1 [0] true (by decide)

/-- Claim C7.  `createSurvey` with an empty title, no questions, a length
mismatch, any empty question text, or any question with fewer than two options
fails, leaves the state unchanged, and leaves `getTotalSurveys` unchanged. -/
theorem createSurvey_rejects_invalid :
    ∀ (s : SafePollState) (caller : Nat) (title description : String)
      (qts : List String) (qos : List (List String)) (ts : Nat),
      (title = "" ∨ qts = [] ∨ qts.length ≠ qos.length ∨
        (∃ t ∈ qts, t = "") ∨ (∃ os ∈ qos, os.length < 2)) →
      (createSurvey s caller title description qts qos ts).isOk = false ∧
      exec s (Op.create caller title description qts qos ts) = s ∧
      getTotalSurveys (exec s (Op.create caller title description qts qos ts)) =
        getTotalSurveys s := by
  intro s caller title description qts qos ts hbad
  have hfail : (createSurvey s caller title description qts qos ts).isOk = false := by
    cases hc : createSurvey s caller title description qts qos ts with
    | error e => rfl
    | ok pair =>
        obtain ⟨s', sid⟩ := pair
        obtain ⟨h1, h2, h3, qs, hb, -, -⟩ := createSurvey_ok_elim hc
        have hall : ∀ p ∈ qts.zip qos, p.1 ≠ "" ∧ 2 ≤ p.2.length :=
          (buildQuestions_isOk_iff _).mp (by rw [hb]; rfl)
        exfalso
        rcases hbad with hbad | hbad | hbad | ⟨t, ht, hte⟩ | ⟨os, hos, hlen⟩
        · exact h1 hbad
        · exact h2 hbad
        · exact hbad h3
        · obtain ⟨i, hi, hval⟩ := List.mem_iff_getElem.mp ht
          have hzip : i < (qts.zip qos).length := by
            rw [List.length_zip]
            omega
          have hmem := List.getElem_mem hzip
          rw [List.getElem_zip] at hmem
          exact (hall _ hmem).1 (hval.trans hte)
        · obtain ⟨i, hi, hval⟩ := List.mem_iff_getElem.mp hos
          have hzip : i < (qts.zip qos).length := by
            rw [List.length_zip]
            omega
          have hmem := List.getElem_mem hzip
          rw [List.getElem_zip] at hmem
          have h2le : 2 ≤ os.length := by simpa [hval] using (hall _ hmem).2
          omega
  have hexec : exec s (Op.create caller title description qts qos ts) = s := by
    simp only [exec]
    cases hc : createSurvey s caller title description qts qos ts with
    | error e => rfl
    | ok pair =>
        rw [hc] at hfail
        exact absurd hfail (by simp [Except.isOk, Except.toBool])
  exact ⟨hfail, hexec, by rw [hexec]⟩

/-- Witness for claim C7: a create call with an empty title on the fresh
contract fails and changes nothing. -/
theorem createSurvey_rejects_invalid_witness :
    (createSurvey initialState 1 "" "D" ["Q"] [["A", "B"]] 0).isOk = false ∧
    exec initialState (Op.create 1 "" "D" ["Q"] [["A", "B"]] 0) = initialState ∧
    getTotalSurveys (exec initialState (Op.create 1 "" "D" ["Q"] [["A", "B"]] 0)) =
      getTotalSurveys initialState :=
  createSurvey_rejects_invalid initialState 1 "" "D" ["Q"] [["A", "B"]] 0 (Or.inl rfl)

/-- Claim C8.  `requestDecryption` succeeds exactly when the survey exists, the
caller is its creator, the survey is ended and its results are not yet
decrypted; and the call never changes contract storage (in particular a
rejected call reverts with no state change). -/
theorem requestDecryption_guard :
    ∀ (s : SafePollState) (caller surveyId : Nat),
      ((requestDecryption s caller surveyId).isOk = true ↔
        (surveyExists s surveyId ∧ (surveyOf s surveyId).creator = caller ∧
         (surveyOf s surveyId).isActive = false ∧
         (surveyOf s surveyId).resultsDecrypted = false)) ∧
      exec s (Op.requestDec caller surveyId) = s := by
  intro s caller surveyId
  refine ⟨⟨?_, ?_⟩, rfl⟩
  · intro h
    cases hc : requestDecryption s caller surveyId with
    | error e =>
        rw [hc] at h
        exact Bool.noConfusion h
    | ok cts =>
        obtain ⟨h1, h2, h3, h4, -⟩ := requestDecryption_ok_elim hc
        exact ⟨h1, h2, h3, h4⟩
  · rintro ⟨h1, h2, h3, h4⟩
    unfold requestDecryption
    rw [if_neg (not_not_intro h1), if_neg (fun hne => hne h2),
      if_neg (by simp [h3]), if_neg (by simp [h4])]
    rfl

/-- Claim C9.  A successful `requestDecryption` submits exactly one handle per
option of every question — the batch length is the total option count — and the
batch is ordered question index ascending then option index ascending: the
handle at position `ctOffset + j` is question `i`'s option-`j` accumulator. -/
theorem requestDecryption_batch_order :
    ∀ (s : SafePollState) (caller surveyId : Nat) (cts : List Nat),
      requestDecryption s caller surveyId = .ok cts →
      cts.length = ctOffset s surveyId (surveyOf s surveyId).questionCount ∧
      ∀ (i j : Nat), i < (surveyOf s surveyId).questionCount →
        j < ((surveyOf s surveyId).questions.getD i default).options.length →
        cts.getD (ctOffset s surveyId i + j) 0 =
          ((surveyOf s surveyId).questions.getD i default).optionCounts.getD j 0 := by
  intro s caller surveyId cts h
  obtain ⟨-, -, -, -, hcts⟩ := requestDecryption_ok_elim h
  subst hcts
  constructor
  · rw [flatten_range_map_length]
    unfold ctOffset
    simp
  · intro i j hi hj
    have key := flatten_range_map_getD i
      (fun k => (List.range ((surveyOf s surveyId).questions.getD k default).options.length).map
        (fun j => ((surveyOf s surveyId).questions.getD k default).optionCounts.getD j 0))
      (surveyOf s surveyId).questionCount j hi (by simpa using hj)
    simp only [List.length_map, List.length_range] at key
    unfold ctOffset
    rw [key]
    exact getD_map_range _ _ _ hj

/-- Witness for claim C9, on the ended two-question survey: the batch is
`[1, 0, 1, 0, 0]` and position `ctOffset + 0` of question 1 holds that
question's option-0 accumulator. -/
theorem requestDecryption_batch_order_witness :
    ([1, 0, 1, 0, 0] : List Nat).getD (ctOffset st2e 1 1 + 0) 0 =
      ((surveyOf st2e 1).questions.getD 1 default).optionCounts.getD 0 0 :=
  (requestDecryption_batch_order st2e 1 1 [1, 0, 1, 0, 0] rfl).2 1 0 (by decide) (by decide)

/-- Claim C10.  On an active survey, for a caller who has not voted, two
`submitVotes` calls that differ only in the encrypted choice values (same
length, matching the question count) produce identical results: the stored
state does not depend on which options were encrypted. -/
theorem submitVotes_choice_independent :
    ∀ (s : SafePollState) (caller surveyId : Nat) (v1 v2 : List Nat) (p : Bool),
      surveyExists s surveyId → (surveyOf s surveyId).isActive = true →
      caller ∉ (surveyOf s surveyId).hasVoted →
      v1.length = (surveyOf s surveyId).questionCount →
      v2.length = (surveyOf s surveyId).questionCount →
      submitVotes s caller surveyId v1 p = submitVotes s caller surveyId v2 p := by
  intro s caller surveyId v1 v2 p hex hact hnv h1 h2
  unfold submitVotes
  rw [h1, h2, applyVotes_blind p v1 v2 (surveyOf s surveyId).questions (h1.trans h2.symm)]

/-- Witness for claim C10: on the freshly created survey, voting `[0]` and
voting `[1]` produce the same result. -/
theorem submitVotes_choice_independent_witness :
    submitVotes st1 2 1 [0] true = submitVotes st1 2 1 [1] true :=
  submitVotes_choice_independent st1 2 1 [0] [1] true (by decide) (by decide) (by decide)
    (by decide) (by decide)

end SafePoll
